import Mathlib

/-!
Shallow embedding of `patch_helper.py` from the `smali_patch` repository:
the directive parser (`parse_patches` and its block readers), the locator
(`find_method_range`, `find_fingerprint`) and the hunk appliers
(`_apply_replace`, `_apply_patch`, `_apply_remove_method`, `_apply_add_field`,
`_apply_remove_field`, `_apply_create_method`, `apply_file_patch`).
Lines are Lean `String`s; all character work is done on `String.data`
(Python `str` indexes by code point, as `List Char` does).
-/

namespace SmaliPatch

/-- Python `str.strip()`: drop leading and trailing whitespace characters. -/
def stripChars (l : List Char) : List Char :=
  ((l.dropWhile Char.isWhitespace).reverse.dropWhile Char.isWhitespace).reverse

/-- Python `line.strip()` on a whole line. -/
def strip (s : String) : String := ⟨stripChars s.data⟩

/-- Python `s.startswith(p)`. -/
def strStartsWith (s p : String) : Bool := p.data.isPrefixOf s.data

/-- Python `s[n:]` for a nonnegative `n` (code-point slicing). -/
def strDrop (s : String) (n : Nat) : String := ⟨s.data.drop n⟩

/-- Python `re.sub` of one-or-more whitespace with a single space, as a
one-pass state machine: `inRun` records that the current character sits in
a whitespace run whose first character already emitted the single space. -/
def collapseGo (inRun : Bool) : List Char → List Char
  | [] => []
  | c :: cs =>
    if c.isWhitespace then
      if inRun then collapseGo true cs else ' ' :: collapseGo true cs
    else c :: collapseGo false cs

/-- Collapse every whitespace run into one space (Python `re.sub`). -/
def collapseWs (l : List Char) : List Char := collapseGo false l

/-- `normalize` from `patch_helper.py`: strip, return `none` for blank or
comment (`#`/`//`) lines, otherwise collapse internal whitespace. -/
def normalize (line : String) : Option String :=
  let l := strip line
  if l = "" || strStartsWith l "#" || strStartsWith l "//" then none
  else some ⟨collapseWs l.data⟩

/-- `is_structure_comment` from `patch_helper.py`. -/
def is_structure_comment (line : String) : Bool :=
  strStartsWith (strip line) "//" || strStartsWith (strip line) "#"

/-- `KEYWORDS` from `patch_helper.py`. -/
def KEYWORDS : List String :=
  ["FILE", "CREATE", "REMOVE", "REPLACE", "PATCH",
   "CREATE_METHOD", "REMOVE_METHOD", "ADD_FIELD", "REMOVE_FIELD",
   "CREDIT", "FIND_REPLACE", "END"]

/-- Python `line_strip.split(' ')[0] if line_strip else ""`: the first
space-delimited token of an (already stripped) line. -/
def firstWord (s : String) : String := ⟨s.data.takeWhile (· ≠ ' ')⟩

/-- Tag of one `PatchOperation`: `'+'`, `'-'` or `' '` in the Python tuples. -/
inductive OpTag where
  | add  : OpTag
  | rem  : OpTag
  | ctx  : OpTag
deriving DecidableEq, Repr

/-- A `PatchOperation` `(tag, line)` from `patch_helper.py`. -/
abbrev PatchOperation := OpTag × String

/-- A `PatchAction` dict from `patch_helper.py`: `type` is always present;
`signature` is present only when a nonempty header was parsed; `content`
holds raw lines for non-PATCH actions; `operations` holds the tagged
plus/minus/space pairs for PATCH actions. -/
structure PatchAction where
  type : String
  signature : Option String := none
  content : List String := []
  operations : List PatchOperation := []
deriving DecidableEq, Repr

/-- A `Patch` dict from `patch_helper.py`. -/
structure Patch where
  type : String
  file_path : String := ""
  actions : List PatchAction := []
  content : List String := []
  find : String := ""
  replace : String := ""
deriving DecidableEq, Repr

/-- The `ApplyResult` literal type from `patch_helper.py`. -/
inductive ApplyResult where
  | applied | created | skipped | failed | hunk_failed
deriving DecidableEq, Repr

/-- Matching of the pattern produced by `method_sig_to_regex` against a
character list: `re.escape(sig)` makes every signature character a literal
except that each literal space becomes one-or-more-whitespace, and the
pattern is anchored at the start (`^...` with `.match`).  The
one-or-more-whitespace case carries full regex backtracking.  Each
recursive call strictly shrinks `ps.length + cs.length`, so the structural
fuel supplied by `sigMatch` is always sufficient. -/
def reMatchF : Nat → List Char → List Char → Bool
  | 0, _, _ => false
  | _ + 1, [], _ => true
  | _ + 1, _ :: _, [] => false
  | fuel + 1, p :: ps, c :: cs =>
    if p = ' ' then
      c.isWhitespace && (reMatchF fuel ps cs || reMatchF fuel (' ' :: ps) cs)
    else
      p = c && reMatchF fuel ps cs

/-- `method_sig_to_regex(sig)` followed by `pattern.match(line.strip())`:
does the stripped line start with the signature, with each space of the
signature matching a run of whitespace? -/
def sigMatch (sig : String) (line : String) : Bool :=
  reMatchF (sig.data.length + (strip line).data.length + 1)
    sig.data (strip line).data

/-- Index of the first line (counting from `i`) satisfying `p`; `none` when
no line does.  Embeds the Python `for i, line in enumerate(...)` searches. -/
def findFrom (p : String → Bool) : List String → Nat → Option Nat
  | [], _ => none
  | l :: ls, i => if p l then some i else findFrom p ls (i + 1)

/-- `find_method_range` from `patch_helper.py`: first line whose stripped
form matches the signature pattern, then the next line (strictly after it)
whose stripped form is exactly `.end method`.  Sentinel `-1` for "not
found", exactly as in the source. -/
def find_method_range (lines : List String) (sig : String) : Int × Int :=
  match findFrom (fun l => sigMatch sig l) lines 0 with
  | none => (-1, -1)
  | some i =>
    match findFrom (fun l => strip l = ".end method") (lines.drop (i + 1)) (i + 1) with
    | none => ((i : Int), -1)
    | some j => ((i : Int), (j : Int))

/-- Python slice `l[k:]` for an `Int` index: a negative index counts from
the end of the list (clamped at the ends, as Python slices are). -/
def sliceFrom (l : List String) (k : Int) : List String :=
  if 0 ≤ k then l.drop k.toNat else l.drop ((l.length : Int) + k).toNat

/-- Python slice `l[:k]` for an `Int` index, with Python's negative-index
semantics. -/
def sliceTo (l : List String) (k : Int) : List String :=
  if 0 ≤ k then l.take k.toNat else l.take ((l.length : Int) + k).toNat

/-- `_apply_replace` from `patch_helper.py`: locate the method range and
splice `lines[:start+1] + content + lines[end:]`; fails only when
`start == -1`. -/
def _apply_replace (lines : List String) (a : PatchAction) : Option (List String) :=
  let r := find_method_range lines (a.signature.getD "")
  if r.1 = -1 then none
  else some (sliceTo lines (r.1 + 1) ++ a.content ++ sliceFrom lines r.2)

/-- `_apply_remove_method` from `patch_helper.py`: locate the method range
and splice `lines[:start] + lines[end+1:]`; fails only when `start == -1`. -/
def _apply_remove_method (lines : List String) (a : PatchAction) : Option (List String) :=
  let r := find_method_range lines (a.signature.getD "")
  if r.1 = -1 then none
  else some (sliceTo lines r.1 ++ sliceFrom lines (r.2 + 1))

/-- Backward scan `for i in range(len(lines)-1, -1, -1)` breaking at the
first hit: the index of the LAST line satisfying `p`, or `-1`. -/
def backFind (p : String → Bool) (i : Nat) : List String → Int
  | [] => -1
  | l :: ls =>
    let r := backFind p (i + 1) ls
    if r ≠ -1 then r else if p l then (i : Int) else -1

/-- The second insertion-point loop of `_apply_add_field`: scan forward;
a line starting `.method ` breaks with `insert_pos = i`; a line starting
`.super ` assigns `insert_pos = i + 1` WITHOUT breaking (so a later
`.super` or `.method` overwrites it).  Result `-1` when neither occurs. -/
def addFieldFwd (i : Nat) : List String → Int
  | [] => -1
  | l :: ls =>
    if strStartsWith (strip l) ".method " then (i : Int)
    else if strStartsWith (strip l) ".super " then
      let r := addFieldFwd (i + 1) ls
      if r ≠ -1 then r else (i : Int) + 1
    else addFieldFwd (i + 1) ls

/-- `_apply_add_field` from `patch_helper.py`. -/
def _apply_add_field (lines : List String) (a : PatchAction) : Option (List String) :=
  if a.content = [] then none
  else
    let p1 := backFind (fun l => strStartsWith (strip l) ".field ") 0 lines
    let pos : Int := if p1 ≠ -1 then p1 + 1 else addFieldFwd 0 lines
    if pos = -1 then none
    else
      let posN := pos.toNat
      let newContent :=
        if posN > 0 && strip (lines.getD (posN - 1) "") ≠ "" then "" :: a.content
        else a.content
      some (lines.take posN ++ newContent ++ lines.drop posN)

/-- `_apply_create_method` from `patch_helper.py`: insert before the last
line whose stripped form starts `.end class`, with a blank separator when
the preceding line is non-blank. -/
def _apply_create_method (lines : List String) (a : PatchAction) : Option (List String) :=
  let p := backFind (fun l => strStartsWith (strip l) ".end class") 0 lines
  if p = -1 then none
  else
    let posN := p.toNat
    let newContent :=
      if posN > 0 && strip (lines.getD (posN - 1) "") ≠ "" then "" :: a.content
      else a.content
    some (lines.take posN ++ newContent ++ lines.drop posN)

/-- Does `needle` occur as a contiguous sublist of the haystack? -/
def containsSub (needle : List Char) : List Char → Bool
  | [] => needle.isEmpty
  | c :: rest => needle.isPrefixOf (c :: rest) || containsSub needle rest

/-- The `REMOVE_FIELD` matcher: `re.compile(r'^\.field\s+.*' +
re.escape(sig)).search(line.strip())` — the stripped line starts with
`.field`, followed by at least one whitespace character, followed
somewhere later by the literal signature fragment. -/
def fieldSearchMatch (sig : String) (line : String) : Bool :=
  let t := (strip line).data
  ".field".data.isPrefixOf t &&
    (match t.drop 6 with
     | [] => false
     | c :: cs => c.isWhitespace && containsSub sig.data cs)

/-- `_apply_remove_field` from `patch_helper.py`: delete the first line
matching the field pattern. -/
def _apply_remove_field (lines : List String) (a : PatchAction) : Option (List String) :=
  let sig := a.signature.getD ""
  if sig = "" then none
  else
    match findFrom (fun l => fieldSearchMatch sig l) lines 0 with
    | some i => some (lines.take i ++ lines.drop (i + 1))
    | none => none

/-- The candidate-position walk inside `find_fingerprint`: compare target
lines against the fingerprint, skipping target lines that `normalize` to
`none`; succeed when the whole fingerprint is consumed. -/
def matchAt : List String → List String → Bool
  | _, [] => true
  | [], _ :: _ => false
  | t :: ts, f :: fs =>
    match normalize t with
    | none => matchAt ts (f :: fs)
    | some n => if n = f then matchAt ts fs else false

/-- `find_fingerprint` from `patch_helper.py`: the first start index whose
walk consumes the whole fingerprint; `none` embeds the `-1` sentinel
(checked by the only caller before use). -/
def find_fingerprint : List String → List String → Option Nat
  | [], _ => none
  | l :: ls, fp =>
    if matchAt (l :: ls) fp then some 0
    else (find_fingerprint ls fp).map (· + 1)

/-- The fingerprint built at the top of `_apply_patch`: normalized forms of
the Context and Remove operation lines, ignorable ones dropped. -/
def fingerprintOf (ops : List PatchOperation) : List String :=
  ops.filterMap (fun op => if op.1 = OpTag.add then none else normalize op.2)

/-- The operation-replay loop of `_apply_patch`, on the target suffix that
starts at the matched index: an Add appends its literal line; a Context or
Remove operation first walks past ignorable target lines (copying them for
Context, dropping them for Remove), then consumes one non-ignorable target
line (copied for Context, dropped for Remove); running out of target lines
with a Context/Remove pending is the "unexpected end of file" failure; the
target remainder is appended once the operations are exhausted. -/
def replayOps : List PatchOperation → List String → Option (List String)
  | [], rest => some rest
  | (OpTag.add, s) :: ops, rest => (replayOps ops rest).map (fun t => s :: t)
  | (OpTag.ctx, _) :: ops, rest =>
    match rest.dropWhile (fun l => (normalize l).isNone) with
    | [] => none
    | l :: rest' =>
      (replayOps ops rest').map
        (fun t => rest.takeWhile (fun l => (normalize l).isNone) ++ l :: t)
  | (OpTag.rem, _) :: ops, rest =>
    match rest.dropWhile (fun l => (normalize l).isNone) with
    | [] => none
    | _ :: rest' => replayOps ops rest'

/-- `_apply_patch` from `patch_helper.py`: build the fingerprint, fail when
it is empty, find its first occurrence, fail when absent, then replay the
operations at the match point. -/
def _apply_patch (lines : List String) (a : PatchAction) : Option (List String) :=
  let fingerprint := fingerprintOf a.operations
  if fingerprint = [] then none
  else
    match find_fingerprint lines fingerprint with
    | none => none
    | some k => (replayOps a.operations (lines.drop k)).map (fun t => lines.take k ++ t)

/-- The action dispatch inside `apply_file_patch`: an unrecognized action
type leaves `result = None`, which the caller treats as a failed hunk. -/
def applyAction (lines : List String) (a : PatchAction) : Option (List String) :=
  if a.type = "REPLACE" then _apply_replace lines a
  else if a.type = "PATCH" then _apply_patch lines a
  else if a.type = "CREATE_METHOD" then _apply_create_method lines a
  else if a.type = "REMOVE_METHOD" then _apply_remove_method lines a
  else if a.type = "ADD_FIELD" then _apply_add_field lines a
  else if a.type = "REMOVE_FIELD" then _apply_remove_field lines a
  else none

/-- The action loop of `apply_file_patch`: each action sees the output of
the previous one; the first failing action aborts the whole Patch. -/
def applyActions (lines : List String) : List PatchAction → Option (List String)
  | [] => some lines
  | a :: rest =>
    match applyAction lines a with
    | none => none
    | some l => applyActions l rest

/-- `read_content_block` from `patch_helper.py`: collect raw lines until
the first line whose stripped form's first space-delimited token is a
reserved keyword; an `END` terminator is consumed, any other keyword line
is left for the caller; the terminator is never part of the content. -/
def read_content_block : List String → List String × List String
  | [] => ([], [])
  | l :: rest =>
    if firstWord (strip l) ∈ KEYWORDS then
      if firstWord (strip l) = "END" then ([], rest) else ([], l :: rest)
    else
      ((l :: (read_content_block rest).1), (read_content_block rest).2)

theorem read_content_block_rest_le (lines : List String) :
    (read_content_block lines).2.length ≤ lines.length := by
  induction lines with
  | nil => simp [read_content_block]
  | cons l rest ih =>
    rw [read_content_block]
    split
    · split
      · exact Nat.le_succ _
      · exact Nat.le_refl _
    · exact Nat.le_succ_of_le ih

/-- `parse_patch_operations` from `patch_helper.py`. -/
def parse_patch_operations (lines : List String) : List PatchOperation :=
  lines.map (fun l =>
    if strStartsWith l "+ " then (OpTag.add, strDrop l 2)
    else if strStartsWith l "- " then (OpTag.rem, strDrop l 2)
    else (OpTag.ctx, l))

/-- `parse_action_block` from `patch_helper.py`: strip the header line,
slice off the keyword to get the optional signature, then read the content
block; a PATCH body is converted to operations. -/
def parse_action_block (rawLine : String) (rest : List String)
    (action_type : String) : PatchAction × List String :=
  let line := strip rawLine
  let header :=
    if action_type = "PATCH" && line.length > 5 then strip (strDrop line 5)
    else if action_type = "REPLACE" then strip (strDrop line 8)
    else if action_type = "REMOVE_METHOD" then strip (strDrop line 14)
    else if action_type = "REMOVE_FIELD" then strip (strDrop line 13)
    else if action_type = "ADD_FIELD" then strip (strDrop line 9)
    else ""
  let sig : Option String := if header = "" then none else some header
  if action_type = "PATCH" then
    ({ type := "PATCH", signature := sig,
       operations := parse_patch_operations (read_content_block rest).1 },
     (read_content_block rest).2)
  else
    ({ type := action_type, signature := sig,
       content := (read_content_block rest).1 },
     (read_content_block rest).2)

theorem parse_action_block_rest_le (rawLine : String) (rest : List String)
    (t : String) : (parse_action_block rawLine rest t).2.length ≤ rest.length := by
  simp only [parse_action_block]
  split <;> exact read_content_block_rest_le rest

/-- `parse_create_block` from `patch_helper.py`. -/
def parse_create_block (rawLine : String) (rest : List String) :
    Patch × List String :=
  ({ type := "CREATE", file_path := strip (strDrop (strip rawLine) 7),
     content := (read_content_block rest).1 },
   (read_content_block rest).2)

/-- The action loop of `parse_file_block` from `patch_helper.py`: a new
top-level `FILE `/`CREATE `/`REMOVE ` line implicitly closes the block
(checked BEFORE the blank/comment skip); `END` closes it explicitly;
recognized action keywords read a nested block; anything else is skipped. -/
def parse_file_block_actions (acc : List PatchAction) :
    List String → List PatchAction × List String
  | [] => (acc, [])
  | l :: rest =>
    if strStartsWith (strip l) "FILE " || strStartsWith (strip l) "CREATE " ||
        strStartsWith (strip l) "REMOVE " then (acc, l :: rest)
    else if strip l = "" || is_structure_comment (strip l) then
      parse_file_block_actions acc rest
    else if strip l = "END" then (acc, rest)
    else if strStartsWith (strip l) "REPLACE " then
      parse_file_block_actions (acc ++ [(parse_action_block l rest "REPLACE").1])
        (parse_action_block l rest "REPLACE").2
    else if strStartsWith (strip l) "PATCH" then
      parse_file_block_actions (acc ++ [(parse_action_block l rest "PATCH").1])
        (parse_action_block l rest "PATCH").2
    else if strip l = "CREATE_METHOD" then
      parse_file_block_actions (acc ++ [(parse_action_block l rest "CREATE_METHOD").1])
        (parse_action_block l rest "CREATE_METHOD").2
    else if strStartsWith (strip l) "REMOVE_METHOD " then
      parse_file_block_actions (acc ++ [(parse_action_block l rest "REMOVE_METHOD").1])
        (parse_action_block l rest "REMOVE_METHOD").2
    else if strStartsWith (strip l) "ADD_FIELD" then
      parse_file_block_actions (acc ++ [(parse_action_block l rest "ADD_FIELD").1])
        (parse_action_block l rest "ADD_FIELD").2
    else if strStartsWith (strip l) "REMOVE_FIELD " then
      parse_file_block_actions (acc ++ [(parse_action_block l rest "REMOVE_FIELD").1])
        (parse_action_block l rest "REMOVE_FIELD").2
    else parse_file_block_actions acc rest
termination_by lines => lines.length
decreasing_by
  all_goals simp only [List.length_cons]
  all_goals
    first
    | exact Nat.lt_succ_self _
    | exact Nat.lt_succ_of_le (parse_action_block_rest_le ..)

/-- `parse_file_block` from `patch_helper.py`. -/
def parse_file_block (rawLine : String) (rest : List String) :
    Patch × List String :=
  ({ type := "FILE", file_path := strip (strDrop (strip rawLine) 5),
     actions := (parse_file_block_actions [] rest).1 },
   (parse_file_block_actions [] rest).2)

theorem parse_file_block_actions_rest_le :
    ∀ (n : Nat) (acc : List PatchAction) (lines : List String),
      lines.length ≤ n →
      (parse_file_block_actions acc lines).2.length ≤ lines.length := by
  intro n
  induction n with
  | zero =>
    intro acc lines h
    have hl : lines = [] := List.eq_nil_of_length_eq_zero (Nat.le_zero.mp h)
    subst hl
    simp [parse_file_block_actions]
  | succ n ih =>
    intro acc lines h
    match lines with
    | [] => simp [parse_file_block_actions]
    | l :: rest =>
      have hr : rest.length ≤ n := Nat.succ_le_succ_iff.mp h
      rw [parse_file_block_actions]
      split
      · exact Nat.le_refl _
      · split
        · exact Nat.le_succ_of_le (ih acc rest hr)
        · split
          · exact Nat.le_succ _
          · have hact : ∀ t acc',
                (parse_file_block_actions acc'
                  (parse_action_block l rest t).2).2.length ≤ rest.length := by
              intro t acc'
              have h1 := parse_action_block_rest_le l rest t
              exact Nat.le_trans (ih acc' _ (Nat.le_trans h1 hr)) h1
            split
            · exact Nat.le_succ_of_le (hact _ _)
            · split
              · exact Nat.le_succ_of_le (hact _ _)
              · split
                · exact Nat.le_succ_of_le (hact _ _)
                · split
                  · exact Nat.le_succ_of_le (hact _ _)
                  · split
                    · exact Nat.le_succ_of_le (hact _ _)
                    · split
                      · exact Nat.le_succ_of_le (hact _ _)
                      · exact Nat.le_succ_of_le (ih acc rest hr)

/-- `parse_patches` from `patch_helper.py`.  The result is wrapped in
`Option`: the source's `FIND_REPLACE` branch calls `fr_pattern.match`, and
`fr_pattern` is defined nowhere in the repository, so reaching that branch
raises an uncaught `NameError` — embedded here as `none`. -/
def parse_patches_go (patches : List Patch) (credits : List String) :
    List String → Option (List Patch × List String)
  | [] => some (patches, credits)
  | l :: rest =>
    if strip l = "" || is_structure_comment (strip l) then
      parse_patches_go patches credits rest
    else if strStartsWith (strip l) "CREDIT " then
      parse_patches_go patches (credits ++ [strip (strDrop (strip l) 7)]) rest
    else if strStartsWith (strip l) "FILE " then
      parse_patches_go (patches ++ [(parse_file_block l rest).1]) credits
        (parse_file_block l rest).2
    else if strStartsWith (strip l) "CREATE " then
      parse_patches_go (patches ++ [(parse_create_block l rest).1]) credits
        (parse_create_block l rest).2
    else if strStartsWith (strip l) "REMOVE " then
      parse_patches_go
        (patches ++ [{ type := "REMOVE", file_path := strip (strDrop (strip l) 7) }])
        credits rest
    else if strStartsWith (strip l) "FIND_REPLACE " then
      none
    else parse_patches_go patches credits rest
termination_by lines => lines.length
decreasing_by
  all_goals simp only [parse_file_block, parse_create_block, List.length_cons]
  all_goals
    first
    | exact Nat.lt_succ_self _
    | exact Nat.lt_succ_of_le (parse_file_block_actions_rest_le _ [] _ (Nat.le_refl _))
    | exact Nat.lt_succ_of_le (read_content_block_rest_le _)

/-- `parse_patches` from `patch_helper.py` (see `parse_patches_go` for the
`Option` wrapping of the `fr_pattern` `NameError`). -/
def parse_patches (lines : List String) : Option (List Patch × List String) :=
  parse_patches_go [] [] lines

/-- `apply_file_patch` from `patch_helper.py`, on the in-memory buffer of
the target file (the filesystem read/write around it is the collaborator):
returns the outcome tag together with the buffer that ends up on disk —
the original buffer when the patch fails or is skipped, the modified one
when it is applied. -/
def apply_file_patch (original : List String) (p : Patch) : ApplyResult × List String :=
  match applyActions original p.actions with
  | none => (ApplyResult.hunk_failed, original)
  | some modified =>
    if original = modified then (ApplyResult.skipped, original)
    else (ApplyResult.applied, modified)

/-! ## Helper lemmas -/

theorem sliceTo_ofNat (l : List String) (n : Nat) :
    sliceTo l (n : Int) = l.take n := by
  rw [sliceTo, if_pos (Int.natCast_nonneg n), Int.toNat_natCast]

theorem sliceFrom_ofNat (l : List String) (n : Nat) :
    sliceFrom l (n : Int) = l.drop n := by
  rw [sliceFrom, if_pos (Int.natCast_nonneg n), Int.toNat_natCast]

/-- Walking the matcher over a prefix whose non-ignorable normalized lines
are exactly the first `k` fingerprint entries consumes those entries. -/
theorem matchAt_skip (t1 : List String) :
    ∀ (fp : List String) (k : Nat) (rest : List String),
      t1.filterMap normalize = fp.take k → k ≤ fp.length →
      matchAt (t1 ++ rest) fp = matchAt rest (fp.drop k) := by
  induction t1 with
  | nil =>
    intro fp k rest h hk
    rcases (List.take_eq_nil_iff).mp h.symm with hk0 | hfp
    · subst hk0; rfl
    · subst hfp
      have : k = 0 := Nat.le_zero.mp hk
      subst this; rfl
  | cons x t1' ih =>
    intro fp k rest h hk
    cases hx : normalize x with
    | none =>
      rw [List.filterMap_cons_none hx] at h
      cases fp with
      | nil => simp [matchAt]
      | cons f fs =>
        rw [List.cons_append, matchAt, hx]
        exact ih (f :: fs) k rest h hk
    | some n =>
      rw [List.filterMap_cons_some hx] at h
      cases k with
      | zero => simp at h
      | succ k' =>
        cases fp with
        | nil => simp at h
        | cons f fs =>
          rw [List.take_succ_cons] at h
          have hnf : n = f := (List.cons.injEq _ _ _ _ ▸ h).1
          have h' : t1'.filterMap normalize = fs.take k' :=
            (List.cons.injEq _ _ _ _ ▸ h).2
          have hk' : k' ≤ fs.length := Nat.succ_le_succ_iff.mp (by simpa using hk)
          rw [List.cons_append]
          simp only [matchAt, hx, List.drop_succ_cons]
          rw [if_pos hnf]
          exact ih fs k' rest h' hk'

/-- Inserting a line that normalizes to ignorable anywhere in the target
does not change the result of the matcher walk. -/
theorem matchAt_insert_ignorable (t1 : List String) :
    ∀ (fp t2 : List String) (g : String), normalize g = none →
      matchAt (t1 ++ g :: t2) fp = matchAt (t1 ++ t2) fp := by
  induction t1 with
  | nil =>
    intro fp t2 g hg
    cases fp with
    | nil => simp [matchAt]
    | cons f fs => simp only [List.nil_append, matchAt, hg]
  | cons x t1' ih =>
    intro fp t2 g hg
    cases fp with
    | nil => simp [matchAt]
    | cons f fs =>
      rw [List.cons_append, List.cons_append]
      cases hx : normalize x with
      | none =>
        simp only [matchAt, hx]
        exact ih (f :: fs) t2 g hg
      | some n =>
        simp only [matchAt, hx]
        by_cases hnf : n = f
        · rw [if_pos hnf, if_pos hnf]
          exact ih fs t2 g hg
        · rw [if_neg hnf, if_neg hnf]

/-- A nonempty buffer whose walk succeeds at position 0 is found at 0. -/
theorem find_fingerprint_zero (lines fp : List String) (h0 : lines ≠ [])
    (h : matchAt lines fp = true) : find_fingerprint lines fp = some 0 := by
  cases lines with
  | nil => exact absurd rfl h0
  | cons l ls => rw [find_fingerprint, if_pos h]

/-- Inserting an ignorable line does not change whether a nonempty
fingerprint is found somewhere in the buffer. -/
theorem find_fingerprint_insert_ignorable (t1 : List String) :
    ∀ (fp t2 : List String) (g : String), fp ≠ [] → normalize g = none →
      (find_fingerprint (t1 ++ g :: t2) fp).isSome =
        (find_fingerprint (t1 ++ t2) fp).isSome := by
  induction t1 with
  | nil =>
    intro fp t2 g hfp hg
    have hm : matchAt (g :: t2) fp = matchAt t2 fp :=
      matchAt_insert_ignorable [] fp t2 g hg
    by_cases h : matchAt t2 fp = true
    · rw [List.nil_append, List.nil_append, find_fingerprint,
        if_pos (hm.trans h)]
      cases t2 with
      | nil =>
        cases fp with
        | nil => exact absurd rfl hfp
        | cons f fs => simp [matchAt] at h
      | cons l ls =>
        rw [find_fingerprint, if_pos h]
    · have hm' : matchAt (g :: t2) fp = false := by
        rw [hm]; exact Bool.not_eq_true _ ▸ h
      rw [List.nil_append, List.nil_append, find_fingerprint, if_neg]
      · cases t2 with
        | nil => simp [find_fingerprint]
        | cons l ls =>
          rw [find_fingerprint, if_neg]
          · simp
          · exact fun hc => h hc
      · exact fun hc => h (hm ▸ hc)
  | cons x t1' ih =>
    intro fp t2 g hfp hg
    have hm : matchAt (x :: (t1' ++ g :: t2)) fp =
        matchAt (x :: (t1' ++ t2)) fp := by
      have := matchAt_insert_ignorable (x :: t1') fp t2 g hg
      simpa using this
    rw [List.cons_append, List.cons_append, find_fingerprint, find_fingerprint]
    by_cases h : matchAt (x :: (t1' ++ t2)) fp = true
    · rw [if_pos h, if_pos (hm.trans h)]
    · rw [if_neg (fun hc => h (hm ▸ hc)), if_neg h]
      simp [ih fp t2 g hfp hg]

/-- Walking the matcher over an all-ignorable prefix changes nothing. -/
theorem matchAt_ign_append (g : List String)
    (hg : ∀ l ∈ g, normalize l = none) (rest fp : List String) :
    matchAt (g ++ rest) fp = matchAt rest fp := by
  have h := matchAt_skip g fp 0 rest
    (by rw [List.take_zero]; exact List.filterMap_eq_nil_iff.mpr hg)
    (Nat.zero_le _)
  simpa using h

/-- `dropWhile` of the ignorable test jumps over an all-ignorable block. -/
theorem dropWhile_ign_append (g rest : List String)
    (hg : ∀ l ∈ g, normalize l = none) :
    (g ++ rest).dropWhile (fun l => (normalize l).isNone) =
      rest.dropWhile (fun l => (normalize l).isNone) := by
  induction g with
  | nil => rfl
  | cons x g' ih =>
    rw [List.cons_append,
      List.dropWhile_cons_of_pos (by simp [hg x (by simp)])]
    exact ih fun l hl => hg l (by simp [hl])

/-- `takeWhile` of the ignorable test keeps an all-ignorable block. -/
theorem takeWhile_ign_append (g rest : List String)
    (hg : ∀ l ∈ g, normalize l = none) :
    (g ++ rest).takeWhile (fun l => (normalize l).isNone) =
      g ++ rest.takeWhile (fun l => (normalize l).isNone) := by
  induction g with
  | nil => rfl
  | cons x g' ih =>
    rw [List.cons_append,
      List.takeWhile_cons_of_pos (by simp [hg x (by simp)]),
      ih fun l hl => hg l (by simp [hl]), List.cons_append]

/-- The backward scan yields the sentinel exactly when no line matches. -/
theorem backFind_eq_neg_one_iff (p : String → Bool) :
    ∀ (lines : List String) (i : Nat),
      backFind p i lines = -1 ↔ ∀ l ∈ lines, p l = false := by
  intro lines
  induction lines with
  | nil => intro i; simp [backFind]
  | cons l ls ih =>
    intro i
    simp only [backFind]
    by_cases hr : backFind p (i + 1) ls = -1
    · rw [hr, if_neg (by simp)]
      by_cases hp : p l = true
      · rw [if_pos hp]
        constructor
        · intro h; exact absurd h (by omega)
        · intro hall; rw [hall l (List.mem_cons_self l ls)] at hp; cases hp
      · rw [if_neg hp]
        have hp' : p l = false := (Bool.not_eq_true (p l)) ▸ hp
        constructor
        · intro _ x hx
          rcases List.mem_cons.mp hx with rfl | hx'
          · exact hp'
          · exact (ih (i + 1)).mp hr x hx'
        · intro _; rfl
    · rw [if_pos hr]
      constructor
      · intro h; exact absurd h hr
      · intro hall
        exact absurd ((ih (i + 1)).mpr fun x hx => hall x (by simp [hx])) hr

/-- The backward scan yields the sentinel or a nonnegative index. -/
theorem backFind_nonneg (p : String → Bool) :
    ∀ (lines : List String) (i : Nat),
      backFind p i lines = -1 ∨ 0 ≤ backFind p i lines := by
  intro lines
  induction lines with
  | nil => intro i; left; rfl
  | cons l ls ih =>
    intro i
    simp only [backFind]
    by_cases hr : backFind p (i + 1) ls = -1
    · rw [hr, if_neg (by simp)]
      by_cases hp : p l = true
      · rw [if_pos hp]; right; exact Int.natCast_nonneg i
      · rw [if_neg hp]; left; rfl
    · rw [if_pos hr]
      rcases ih (i + 1) with h | h
      · exact absurd h hr
      · right; exact h

/-- The backward scan stops at the LAST matching line. -/
theorem backFind_last (p : String → Bool) (y : String) (hy : p y = true) :
    ∀ (xs zs : List String) (i : Nat), (∀ z ∈ zs, p z = false) →
      backFind p i (xs ++ y :: zs) = ((i + xs.length : Nat) : Int) := by
  intro xs
  induction xs with
  | nil =>
    intro zs i hz
    rw [List.nil_append]
    simp only [backFind]
    rw [(backFind_eq_neg_one_iff p zs (i + 1)).mpr hz, if_neg (by simp),
      if_pos hy]
    simp
  | cons x xs' ih =>
    intro zs i hz
    rw [List.cons_append]
    simp only [backFind]
    rw [ih zs (i + 1) hz, if_pos (by omega)]
    simp only [List.length_cons]
    omega

/-- The forward scan of `_apply_add_field` yields the sentinel exactly
when no method and no superclass line occurs. -/
theorem addFieldFwd_eq_neg_one_iff :
    ∀ (lines : List String) (i : Nat),
      addFieldFwd i lines = -1 ↔
        ∀ l ∈ lines, strStartsWith (strip l) ".method " = false ∧
          strStartsWith (strip l) ".super " = false := by
  intro lines
  induction lines with
  | nil => intro i; simp [addFieldFwd]
  | cons l ls ih =>
    intro i
    simp only [addFieldFwd]
    by_cases hm : strStartsWith (strip l) ".method " = true
    · rw [if_pos hm]
      constructor
      · intro h; exact absurd h (by omega)
      · intro hall; have h1 := (hall l (by simp)).1; rw [h1] at hm; cases hm
    · rw [if_neg hm]
      by_cases hs : strStartsWith (strip l) ".super " = true
      · rw [if_pos hs]
        by_cases hr : addFieldFwd (i + 1) ls = -1
        · rw [hr, if_neg (by simp)]
          constructor
          · intro h; exact absurd h (by omega)
          · intro hall
            have h2 := (hall l (by simp)).2; rw [h2] at hs; cases hs
        · rw [if_pos hr]
          constructor
          · intro h; exact absurd h hr
          · intro hall
            have h2 := (hall l (by simp)).2; rw [h2] at hs; cases hs
      · rw [if_neg hs]
        constructor
        · intro h x hx
          rcases List.mem_cons.mp hx with rfl | hx'
          · rw [Bool.not_eq_true] at hm hs; exact ⟨hm, hs⟩
          · exact (ih (i + 1)).mp h x hx'
        · intro hall
          exact (ih (i + 1)).mpr fun x hx => hall x (by simp [hx])

/-- The forward scan breaks at the FIRST method line. -/
theorem addFieldFwd_method (y : String)
    (hy : strStartsWith (strip y) ".method " = true) :
    ∀ (xs zs : List String) (i : Nat),
      (∀ x ∈ xs, strStartsWith (strip x) ".method " = false) →
      addFieldFwd i (xs ++ y :: zs) = ((i + xs.length : Nat) : Int) := by
  intro xs
  induction xs with
  | nil =>
    intro zs i _
    rw [List.nil_append]
    simp only [addFieldFwd]
    rw [if_pos hy]
    simp
  | cons x xs' ih =>
    intro zs i h
    rw [List.cons_append]
    simp only [addFieldFwd]
    rw [if_neg (by simp [h x (by simp)])]
    by_cases hs : strStartsWith (strip x) ".super " = true
    · rw [if_pos hs, ih zs (i + 1) (fun z hz => h z (by simp [hz])),
        if_pos (by omega)]
      simp only [List.length_cons]
      omega
    · rw [if_neg hs, ih zs (i + 1) (fun z hz => h z (by simp [hz]))]
      simp only [List.length_cons]
      omega

/-- Without any method line, the forward scan lands after the LAST
superclass line. -/
theorem addFieldFwd_super (y : String)
    (hy : strStartsWith (strip y) ".super " = true) :
    ∀ (xs zs : List String) (i : Nat),
      (∀ l ∈ xs ++ y :: zs, strStartsWith (strip l) ".method " = false) →
      (∀ z ∈ zs, strStartsWith (strip z) ".super " = false) →
      addFieldFwd i (xs ++ y :: zs) = ((i + xs.length + 1 : Nat) : Int) := by
  intro xs
  induction xs with
  | nil =>
    intro zs i hm hs
    rw [List.nil_append]
    simp only [addFieldFwd]
    rw [if_neg (by simp [hm y (by simp)]), if_pos hy,
      (addFieldFwd_eq_neg_one_iff zs (i + 1)).mpr
        (fun z hz => ⟨hm z (by simp [hz]), hs z hz⟩),
      if_neg (by simp)]
    simp
  | cons x xs' ih =>
    intro zs i hm hs
    rw [List.cons_append]
    simp only [addFieldFwd]
    rw [if_neg (by simp [hm x (by simp)])]
    by_cases hsx : strStartsWith (strip x) ".super " = true
    · rw [if_pos hsx,
        ih zs (i + 1) (fun l hl => hm l (by simp [hl])) hs,
        if_pos (by omega)]
      simp only [List.length_cons]
      omega
    · rw [if_neg hsx, ih zs (i + 1) (fun l hl => hm l (by simp [hl])) hs]
      simp only [List.length_cons]
      omega

/-- `getD` at the junction of an append reads the first cons head. -/
theorem getD_append_length (xs zs : List String) (y d : String) :
    (xs ++ y :: zs).getD xs.length d = y := by
  induction xs with
  | nil => rfl
  | cons x xs' ih => simpa using ih

/-- A line that starts with a nonempty prefix is itself nonempty. -/
theorem ne_empty_of_startsWith (t p : String)
    (hne : strStartsWith "" p = false) (h : strStartsWith t p = true) :
    t ≠ "" := by
  intro ht
  rw [ht, hne] at h
  cases h

/-! ## Claim theorems -/

/-- C1 (counterexample): the general idempotence half of the claim is
false.  The FileEdit Patch with the single ContextPatch action
`[ctx "A", add "A"]` changes `["A"]` to `["A", "A"]` on the first run
(outcome `applied`), and on the second run it is NOT reported `skipped`:
it matches again on its own output and changes the content to
`["A", "A", "A"]`. -/
theorem c1_counterexample :
    apply_file_patch ["A"]
      { type := "FILE", file_path := "f.smali",
        actions := [{ type := "PATCH",
                      operations := [(OpTag.ctx, "A"), (OpTag.add, "A")] }] } =
      (ApplyResult.applied, ["A", "A"]) ∧
    apply_file_patch ["A", "A"]
      { type := "FILE", file_path := "f.smali",
        actions := [{ type := "PATCH",
                      operations := [(OpTag.ctx, "A"), (OpTag.add, "A")] }] } =
      (ApplyResult.applied, ["A", "A", "A"]) :=
  ⟨by decide, by decide⟩

/-- C1 (amended): for every FileEdit Patch whose actions leave the buffer
line-for-line equal to the original, `apply_file_patch` reports `skipped`
rather than `applied`, and the resulting content is the original content.
(The general two-run idempotence does not hold, see the counterexample.) -/
theorem c1_skipped_when_already_applied (original : List String) (p : Patch)
    (h : applyActions original p.actions = some original) :
    apply_file_patch original p = (ApplyResult.skipped, original) := by
  simp [apply_file_patch, h]

/-- Witness for C1: a REPLACE whose content equals the current method body
leaves the buffer unchanged, and the Patch is reported `skipped`. -/
theorem c1_witness :
    apply_file_patch [".method public foo()V", "X", ".end method"]
      { type := "FILE", file_path := "f.smali",
        actions := [{ type := "REPLACE",
                      signature := some ".method public foo()V",
                      content := ["X"] }] } =
      (ApplyResult.skipped, [".method public foo()V", "X", ".end method"]) :=
  c1_skipped_when_already_applied _ _ (by decide)

/-- C2: false of the code as it stands — `fr_pattern` is defined nowhere
in the repository, so `parse_patches` raises `NameError` (embedded as
`none`) as soon as a line starts with `FIND_REPLACE `, instead of parsing
or dropping it; parsing without such a line is total and best-effort. -/
theorem c2_find_replace_line_aborts_parse :
    parse_patches ["CREDIT x", "FIND_REPLACE \"a\" \"b\""] = none ∧
    parse_patches ["CREDIT x"] = some ([], ["x"]) := by
  constructor
  · simp [parse_patches, parse_patches_go, strip, stripChars,
      is_structure_comment, strStartsWith, strDrop]
  · simp [parse_patches, parse_patches_go, strip, stripChars,
      is_structure_comment, strStartsWith, strDrop]

/-- C3: false of the code — on a buffer where the signature matches but no
later line strips to `.end method`, `find_method_range` does report the
sentinel `(start, -1)`, but the dependent actions do NOT fail: Python's
negative slicing makes `_apply_replace` return a modified buffer (keeping
only the last line after the new body) and `_apply_remove_method` return a
buffer with the prefix duplicated (`lines[:start] + lines[0:]`). -/
theorem c3_unterminated_method_actions_succeed :
    find_method_range [".method public foo()V", "return-void"]
      ".method public foo()V" = (0, -1) ∧
    _apply_replace [".method public foo()V", "return-void"]
      { type := "REPLACE", signature := some ".method public foo()V",
        content := ["X"] } =
      some [".method public foo()V", "X", "return-void"] ∧
    _apply_remove_method ["h", ".method public foo()V", "x"]
      { type := "REMOVE_METHOD",
        signature := some ".method public foo()V" } =
      some ["h", "h", ".method public foo()V", "x"] :=
  ⟨by decide, by decide, by decide⟩

/-- C4 (counterexample): nothing stops a Patch from emptying the buffer —
a `REMOVE_METHOD` whose range spans the whole file succeeds, the empty
buffer is the written result, and the Patch is reported `applied`, not a
failure. -/
theorem c4_counterexample :
    apply_file_patch [".method public foo()V", ".end method"]
      { type := "FILE", file_path := "f.smali",
        actions := [{ type := "REMOVE_METHOD",
                      signature := some ".method public foo()V" }] } =
      (ApplyResult.applied, []) := by decide

/-- C4 (amended): a FileEdit Patch whose actions produce an empty buffer
from a non-empty original does NOT short-circuit as a failure: the empty
buffer is reported `applied` and becomes the written content. -/
theorem c4_whole_file_removal_applies (original : List String) (p : Patch)
    (h0 : original ≠ []) (h : applyActions original p.actions = some []) :
    apply_file_patch original p = (ApplyResult.applied, []) := by
  simp [apply_file_patch, h, h0]

/-- Witness for C4. -/
theorem c4_witness :
    apply_file_patch [".method public foo()V", ".end method"]
      { type := "FILE", file_path := "g.smali",
        actions := [{ type := "REMOVE_METHOD",
                      signature := some ".method public foo()V" }] } =
      (ApplyResult.applied, []) :=
  c4_whole_file_removal_applies _ _ (by decide) (by decide)

/-- C9: a content block is exactly the longest prefix of lines whose
stripped first space-delimited token is not a reserved keyword, so the
terminating keyword line — and any line whose first token is a reserved
keyword — is never part of an action body or a created file's content. -/
theorem c9_content_block_bounded (lines : List String) :
    (read_content_block lines).1 =
      lines.takeWhile (fun l => decide (firstWord (strip l) ∉ KEYWORDS)) ∧
    ∀ l ∈ (read_content_block lines).1, firstWord (strip l) ∉ KEYWORDS := by
  have h1 : ∀ ls : List String, (read_content_block ls).1 =
      ls.takeWhile (fun l => decide (firstWord (strip l) ∉ KEYWORDS)) := by
    intro ls
    induction ls with
    | nil => simp [read_content_block]
    | cons l rest ih =>
      rw [read_content_block, List.takeWhile_cons]
      by_cases h : firstWord (strip l) ∈ KEYWORDS
      · simp only [h, if_true, decide_not, not_true, decide_False, Bool.not_true]
        split <;> rfl
      · simp [h, ih]
  refine ⟨h1 lines, fun l hl => ?_⟩
  rw [h1 lines] at hl
  simpa using List.mem_takeWhile_imp hl

/-- Witness for C9 at a concrete block: `REMOVE x` terminates the block
and is excluded from the content. -/
theorem c9_witness :
    (read_content_block ["const v0", "REMOVE x", "w"]).1 = ["const v0"] ∧
    firstWord (strip "const v0") ∉ KEYWORDS :=
  ⟨(c9_content_block_bounded ["const v0", "REMOVE x", "w"]).1.trans (by decide),
   (c9_content_block_bounded ["const v0", "REMOVE x", "w"]).2 "const v0" (by decide)⟩

/-- C10: a ContextPatch action whose every operation is an Add or whose
every Context/Remove line normalizes to ignorable has an empty
fingerprint; `_apply_patch` fails on it, and a FileEdit Patch holding only
this action is a failed hunk that leaves the buffer untouched. -/
theorem c10_empty_fingerprint_fails (lines : List String) (fp : String)
    (a : PatchAction) (htype : a.type = "PATCH")
    (h : ∀ op ∈ a.operations, op.1 = OpTag.add ∨ normalize op.2 = none) :
    _apply_patch lines a = none ∧
    apply_file_patch lines { type := "FILE", file_path := fp, actions := [a] } =
      (ApplyResult.hunk_failed, lines) := by
  have hfp : fingerprintOf a.operations = [] := by
    rw [fingerprintOf, List.filterMap_eq_nil_iff]
    intro op hop
    rcases h op hop with h1 | h1
    · simp [h1]
    · by_cases h2 : op.1 = OpTag.add <;> simp [h1, h2]
  have hpatch : _apply_patch lines a = none := by
    simp [_apply_patch, hfp]
  have haction : applyAction lines a = none := by
    simp [applyAction, htype, hpatch]
  refine ⟨hpatch, ?_⟩
  simp [apply_file_patch, applyActions, haction]

/-- Witness for C10: one Add plus one comment-only Context line. -/
theorem c10_witness :
    _apply_patch ["A"]
      { type := "PATCH",
        operations := [(OpTag.add, "X"), (OpTag.ctx, "# c")] } = none ∧
    apply_file_patch ["A"]
      { type := "FILE", file_path := "f.smali",
        actions := [{ type := "PATCH",
                      operations := [(OpTag.add, "X"), (OpTag.ctx, "# c")] }] } =
      (ApplyResult.hunk_failed, ["A"]) :=
  c10_empty_fingerprint_fails ["A"] "f.smali" _ rfl (by decide)

/-- C6: when a method range is located (signature found AND terminator
found), Replace keeps the signature line (`take (s+1)` ends with it) and
the terminator line (`drop e` starts with it) and splices the new body in
between, altering nothing outside the range; concretely, the spec's
end-to-end scenario holds, and a Replace on `foo` leaves every line of a
following method `bar` unchanged. -/
theorem c6_replace_method_boundaries :
    (∀ (lines : List String) (sig : String) (content : List String) (s e : Nat),
       find_method_range lines sig = ((s : Int), (e : Int)) →
       _apply_replace lines
         { type := "REPLACE", signature := some sig, content := content } =
         some (lines.take (s + 1) ++ content ++ lines.drop e)) ∧
    _apply_replace [".method public foo()V", "return-void", ".end method"]
      { type := "REPLACE", signature := some ".method public foo()V",
        content := ["const/4 v0, 0x1", "return v0"] } =
      some [".method public foo()V", "const/4 v0, 0x1", "return v0",
            ".end method"] ∧
    _apply_replace
      [".method public foo()V", "return-void", ".end method", "",
       ".method public bar()V", "nop", ".end method"]
      { type := "REPLACE", signature := some ".method public foo()V",
        content := ["X"] } =
      some [".method public foo()V", "X", ".end method", "",
            ".method public bar()V", "nop", ".end method"] := by
  refine ⟨?_, by decide, by decide⟩
  intro lines sig content s e h
  have hs : ¬((s : Int) = -1) := by omega
  have hcast : (s : Int) + 1 = ((s + 1 : Nat) : Int) := by push_cast; ring
  simp only [_apply_replace, Option.getD_some, h, hs, if_false, hcast,
    sliceTo_ofNat, sliceFrom_ofNat]

/-- Witness for C6 at the located range `(0, 2)` of the end-to-end
scenario buffer. -/
theorem c6_witness :
    _apply_replace [".method public foo()V", "return-void", ".end method"]
      { type := "REPLACE", signature := some ".method public foo()V",
        content := ["Y"] } =
      some ([".method public foo()V", "return-void", ".end method"].take 1 ++
        ["Y"] ++ [".method public foo()V", "return-void", ".end method"].drop 2) :=
  c6_replace_method_boundaries.1
    [".method public foo()V", "return-void", ".end method"]
    ".method public foo()V" ["Y"] 0 2 (by decide)

/-- C8: fingerprint matching tolerates ignorable drift but nothing else —
inserting a line that normalizes to ignorable (blank or comment) anywhere
in the target changes neither the matcher walk nor whether a nonempty
fingerprint is found, while inserting a non-ignorable line whose
normalized form differs from the fingerprint entry expected at that point
makes the walk at that position fail. -/
theorem c8_fingerprint_tolerance :
    (∀ (t1 t2 : List String) (g : String) (fp : List String),
       normalize g = none →
       matchAt (t1 ++ g :: t2) fp = matchAt (t1 ++ t2) fp) ∧
    (∀ (t1 t2 : List String) (g : String) (fp : List String),
       fp ≠ [] → normalize g = none →
       (find_fingerprint (t1 ++ g :: t2) fp).isSome =
         (find_fingerprint (t1 ++ t2) fp).isSome) ∧
    (∀ (t1 t2 : List String) (x n f : String) (fs : List String)
       (k : Nat) (fp : List String),
       t1.filterMap normalize = fp.take k → fp.drop k = f :: fs →
       normalize x = some n → n ≠ f →
       matchAt (t1 ++ x :: t2) fp = false) := by
  refine ⟨fun t1 t2 g fp hg => matchAt_insert_ignorable t1 fp t2 g hg,
    fun t1 t2 g fp hfp hg => find_fingerprint_insert_ignorable t1 fp t2 g hfp hg,
    fun t1 t2 x n f fs k fp htake hdrop hx hnf => ?_⟩
  have hk : k ≤ fp.length := by
    by_contra hgt
    rw [List.drop_eq_nil_of_le (Nat.le_of_not_lt (fun hlt => hgt (Nat.le_of_lt hlt)))] at hdrop
    exact List.cons_ne_nil f fs hdrop.symm
  rw [matchAt_skip t1 fp k (x :: t2) htake hk, hdrop]
  simp only [matchAt, hx]
  rw [if_neg hnf]

/-- Witness for C8: inserting the comment `# c` between the two matched
lines keeps the match; inserting the differing line `X` breaks it. -/
theorem c8_witness :
    matchAt ["A", "# c", "B"] ["A", "B"] = matchAt ["A", "B"] ["A", "B"] ∧
    (find_fingerprint ["A", "# c", "B"] ["A", "B"]).isSome =
      (find_fingerprint ["A", "B"] ["A", "B"]).isSome ∧
    matchAt ["A", "X", "B"] ["A", "B"] = false :=
  ⟨c8_fingerprint_tolerance.1 ["A"] ["B"] "# c" ["A", "B"] (by decide),
   c8_fingerprint_tolerance.2.1 ["A"] ["B"] "# c" ["A", "B"]
     (by decide) (by decide),
   c8_fingerprint_tolerance.2.2 ["A"] ["B"] "X" "X" "B" [] 1 ["A", "B"]
     (by decide) (by decide) (by decide) (by decide)⟩

/-- C5: a ContextPatch `[ctx A, remove B, add C, ctx D]` matched against a
buffer where `A`, `B`, `D` occur in order among arbitrary ignorable lines
produces a buffer containing `A`, `C`, `D` in that order with `B` absent;
hitting the end of the buffer with a Context/Remove operation pending
(only ignorable lines remain) fails; once all operations are consumed the
remaining original lines are appended unchanged. -/
theorem c5_context_patch_ordering :
    (∀ (g1 g2 g3 g4 : List String) (A B C D : String),
       (∀ l ∈ g1, normalize l = none) → (∀ l ∈ g2, normalize l = none) →
       (∀ l ∈ g3, normalize l = none) → B ∉ g4 →
       normalize A = some A → normalize B = some B → normalize D = some D →
       B ≠ A → B ≠ C → B ≠ D →
       _apply_patch (g1 ++ (A :: (g2 ++ (B :: (g3 ++ (D :: g4))))))
         { type := "PATCH",
           operations := [(OpTag.ctx, A), (OpTag.rem, B),
                          (OpTag.add, C), (OpTag.ctx, D)] } =
         some (g1 ++ (A :: (C :: (g3 ++ (D :: g4))))) ∧
       List.Sublist [A, C, D] (g1 ++ (A :: (C :: (g3 ++ (D :: g4))))) ∧
       B ∉ (g1 ++ (A :: (C :: (g3 ++ (D :: g4)))))) ∧
    (∀ (s : String) (ops : List PatchOperation) (rest : List String),
       (∀ l ∈ rest, normalize l = none) →
       replayOps ((OpTag.ctx, s) :: ops) rest = none ∧
       replayOps ((OpTag.rem, s) :: ops) rest = none) ∧
    (∀ rest : List String, replayOps [] rest = some rest) := by
  refine ⟨?_, ?_, fun rest => rfl⟩
  · intro g1 g2 g3 g4 A B C D hg1 hg2 hg3 hBg4 hA hB hD hBA hBC hBD
    have hAi : ((normalize A).isNone : Bool) = false := by rw [hA]; rfl
    have hBi : ((normalize B).isNone : Bool) = false := by rw [hB]; rfl
    have hDi : ((normalize D).isNone : Bool) = false := by rw [hD]; rfl
    have hfp : fingerprintOf [(OpTag.ctx, A), (OpTag.rem, B),
        (OpTag.add, C), (OpTag.ctx, D)] = [A, B, D] := by
      simp [fingerprintOf, hA, hB, hD]
    have hm : matchAt (g1 ++ (A :: (g2 ++ (B :: (g3 ++ (D :: g4))))))
        [A, B, D] = true := by
      rw [matchAt_ign_append g1 hg1]
      have s1 : matchAt (A :: (g2 ++ (B :: (g3 ++ (D :: g4))))) [A, B, D] =
          matchAt (g2 ++ (B :: (g3 ++ (D :: g4)))) [B, D] := by
        simp [matchAt, hA]
      rw [s1, matchAt_ign_append g2 hg2]
      have s2 : matchAt (B :: (g3 ++ (D :: g4))) [B, D] =
          matchAt (g3 ++ (D :: g4)) [D] := by
        simp [matchAt, hB]
      rw [s2, matchAt_ign_append g3 hg3]
      have s3 : matchAt (D :: g4) [D] = matchAt g4 [] := by
        simp [matchAt, hD]
      rw [s3]
      simp [matchAt]
    have hff : find_fingerprint (g1 ++ (A :: (g2 ++ (B :: (g3 ++ (D :: g4))))))
        [A, B, D] = some 0 :=
      find_fingerprint_zero _ _ (by simp) hm
    have dw1 : (g1 ++ (A :: (g2 ++ (B :: (g3 ++ (D :: g4)))))).dropWhile
        (fun l => (normalize l).isNone) =
        A :: (g2 ++ (B :: (g3 ++ (D :: g4)))) := by
      rw [dropWhile_ign_append g1 _ hg1, List.dropWhile_cons_of_neg (by simp [hAi])]
    have tw1 : (g1 ++ (A :: (g2 ++ (B :: (g3 ++ (D :: g4)))))).takeWhile
        (fun l => (normalize l).isNone) = g1 := by
      rw [takeWhile_ign_append g1 _ hg1,
        List.takeWhile_cons_of_neg (by simp [hAi]), List.append_nil]
    have dw2 : (g2 ++ (B :: (g3 ++ (D :: g4)))).dropWhile
        (fun l => (normalize l).isNone) = B :: (g3 ++ (D :: g4)) := by
      rw [dropWhile_ign_append g2 _ hg2, List.dropWhile_cons_of_neg (by simp [hBi])]
    have dw3 : (g3 ++ (D :: g4)).dropWhile
        (fun l => (normalize l).isNone) = D :: g4 := by
      rw [dropWhile_ign_append g3 _ hg3, List.dropWhile_cons_of_neg (by simp [hDi])]
    have tw3 : (g3 ++ (D :: g4)).takeWhile
        (fun l => (normalize l).isNone) = g3 := by
      rw [takeWhile_ign_append g3 _ hg3,
        List.takeWhile_cons_of_neg (by simp [hDi]), List.append_nil]
    have hreplay : replayOps [(OpTag.ctx, A), (OpTag.rem, B),
        (OpTag.add, C), (OpTag.ctx, D)]
        (g1 ++ (A :: (g2 ++ (B :: (g3 ++ (D :: g4)))))) =
        some (g1 ++ (A :: (C :: (g3 ++ (D :: g4))))) := by
      simp only [replayOps, dw1, tw1, dw2, dw3, tw3, Option.map_some']
    refine ⟨?_, ?_, ?_⟩
    · simp only [_apply_patch, hfp]
      rw [if_neg (List.cons_ne_nil _ _), hff]
      simp only [List.drop_zero, List.take_zero, hreplay, Option.map_some',
        List.nil_append]
    · have hD4 : List.Sublist [D] (g3 ++ (D :: g4)) :=
        List.Sublist.trans (List.Sublist.cons₂ D (List.nil_sublist g4))
          (List.sublist_append_right g3 (D :: g4))
      exact List.Sublist.trans
        (List.Sublist.cons₂ A (List.Sublist.cons₂ C hD4))
        (List.sublist_append_right g1 _)
    · intro hmem
      simp only [List.mem_append, List.mem_cons] at hmem
      rcases hmem with h | h | h | h | h | h
      · simp [hg1 B h] at hB
      · exact hBA h
      · exact hBC h
      · simp [hg3 B h] at hB
      · exact hBD h
      · exact hBg4 h
  · intro s ops rest hrest
    have hdw : rest.dropWhile (fun l => (normalize l).isNone) = [] :=
      List.dropWhile_eq_nil_iff.mpr fun l hl => by simp [hrest l hl]
    exact ⟨by simp only [replayOps, hdw], by simp only [replayOps, hdw]⟩

/-- Witness for C5: concrete ignorable surroundings (blank and comment
lines), a pending Context op on a comment-only remainder, and the verbatim
remainder append. -/
theorem c5_witness :
    _apply_patch (["# a"] ++ ("A" :: ([""] ++ ("B" :: (["// z"] ++ ("D" :: ["t"]))))))
      { type := "PATCH",
        operations := [(OpTag.ctx, "A"), (OpTag.rem, "B"),
                       (OpTag.add, "C"), (OpTag.ctx, "D")] } =
      some (["# a"] ++ ("A" :: ("C" :: (["// z"] ++ ("D" :: ["t"]))))) ∧
    replayOps [(OpTag.ctx, "x")] ["# only-comment"] = none ∧
    replayOps [] ["r1", "r2"] = some ["r1", "r2"] :=
  ⟨(c5_context_patch_ordering.1 ["# a"] [""] ["// z"] ["t"] "A" "B" "C" "D"
      (by decide) (by decide) (by decide) (by decide) (by decide) (by decide)
      (by decide) (by decide) (by decide) (by decide)).1,
   (c5_context_patch_ordering.2.1 "x" [] ["# only-comment"] (by decide)).1,
   c5_context_patch_ordering.2.2 ["r1", "r2"]⟩

/-- C7 (amended): `_apply_add_field` chooses the insertion point by
priority — (1) immediately after the LAST `.field ` line, else (2)
immediately before the FIRST `.method ` line, else (3) immediately after
the last `.super ` line — prefixing a blank separator when the line above
the insertion point is non-blank (in cases (1) and (3) that line is the
anchor itself, hence never blank); and it fails if and only if the content
block is empty OR none of the three anchors exists (the original claim
omitted the empty-content failure). -/
theorem c7_add_field_insertion :
    (∀ (xs zs content : List String) (y : String),
       content ≠ [] →
       strStartsWith (strip y) ".field " = true →
       (∀ z ∈ zs, strStartsWith (strip z) ".field " = false) →
       _apply_add_field (xs ++ y :: zs)
         { type := "ADD_FIELD", content := content } =
         some ((xs ++ [y]) ++ ("" :: content) ++ zs)) ∧
    (∀ (xs zs content : List String) (y : String),
       content ≠ [] →
       (∀ l ∈ xs ++ y :: zs, strStartsWith (strip l) ".field " = false) →
       strStartsWith (strip y) ".method " = true →
       (∀ x ∈ xs, strStartsWith (strip x) ".method " = false) →
       _apply_add_field (xs ++ y :: zs)
         { type := "ADD_FIELD", content := content } =
         some (xs ++
           (if xs ≠ [] ∧ strip (xs.getD (xs.length - 1) "") ≠ ""
            then "" :: content else content) ++ (y :: zs))) ∧
    (∀ (xs zs content : List String) (y : String),
       content ≠ [] →
       (∀ l ∈ xs ++ y :: zs, strStartsWith (strip l) ".field " = false) →
       (∀ l ∈ xs ++ y :: zs, strStartsWith (strip l) ".method " = false) →
       strStartsWith (strip y) ".super " = true →
       (∀ z ∈ zs, strStartsWith (strip z) ".super " = false) →
       _apply_add_field (xs ++ y :: zs)
         { type := "ADD_FIELD", content := content } =
         some ((xs ++ [y]) ++ ("" :: content) ++ zs)) ∧
    (∀ (lines content : List String),
       _apply_add_field lines { type := "ADD_FIELD", content := content } =
           none ↔
         content = [] ∨ ∀ l ∈ lines,
           strStartsWith (strip l) ".field " = false ∧
           strStartsWith (strip l) ".method " = false ∧
           strStartsWith (strip l) ".super " = false) := by
  refine ⟨?_, ?_, ?_, ?_⟩
  · intro xs zs content y hc hy hz
    simp only [_apply_add_field]
    rw [if_neg hc, backFind_last _ y hy xs zs 0 hz]
    have e1 : (((0 + xs.length : Nat) : Int)) ≠ -1 := by omega
    have e2 : ¬((((0 + xs.length : Nat) : Int)) + 1 = -1) := by omega
    rw [if_pos e1, if_neg e2]
    have ht : ((((0 + xs.length : Nat) : Int)) + 1).toNat = xs.length + 1 := by
      omega
    rw [ht]
    simp only [Nat.add_sub_cancel]
    rw [getD_append_length]
    have hyne : strip y ≠ "" := ne_empty_of_startsWith _ _ (by decide) hy
    rw [if_pos (by
      rw [Bool.and_eq_true, decide_eq_true_eq, decide_eq_true_eq]
      exact ⟨Nat.succ_pos _, hyne⟩)]
    rw [List.take_append 1, List.drop_append 1]
    simp
  · intro xs zs content y hc hnofield hy hx
    simp only [_apply_add_field]
    rw [if_neg hc,
      (backFind_eq_neg_one_iff _ (xs ++ y :: zs) 0).mpr hnofield]
    have e1 : ¬((-1 : Int) ≠ -1) := by simp
    rw [if_neg e1, addFieldFwd_method y hy xs zs 0 hx]
    have e2 : ¬((((0 + xs.length : Nat) : Int)) = -1) := by omega
    rw [if_neg e2]
    have ht : (((0 + xs.length : Nat) : Int)).toNat = xs.length := by omega
    rw [ht]
    by_cases hxs : xs = []
    · subst hxs
      rw [if_neg (by
        rw [Bool.and_eq_true]
        rintro ⟨h0, -⟩
        rw [decide_eq_true_eq] at h0
        exact absurd h0 (by simp))]
      simp
    · have hlen : 0 < xs.length := List.length_pos.mpr hxs
      have hgd : (xs ++ y :: zs).getD (xs.length - 1) "" =
          xs.getD (xs.length - 1) "" := by
        rw [List.getD_eq_getElem?_getD, List.getD_eq_getElem?_getD,
          List.getElem?_append_left (by omega)]
      rw [hgd]
      by_cases hb : strip (xs.getD (xs.length - 1) "") ≠ ""
      · rw [if_pos (by
          rw [Bool.and_eq_true, decide_eq_true_eq, decide_eq_true_eq]
          exact ⟨hlen, hb⟩)]
        rw [if_pos ⟨hxs, hb⟩, List.take_left, List.drop_left]
      · rw [if_neg (by
          rw [Bool.and_eq_true]
          rintro ⟨-, h2⟩
          rw [decide_eq_true_eq] at h2
          exact hb h2)]
        rw [if_neg (by rintro ⟨-, h2⟩; exact hb h2),
          List.take_left, List.drop_left]
  · intro xs zs content y hc hnofield hnomethod hy hz
    simp only [_apply_add_field]
    rw [if_neg hc,
      (backFind_eq_neg_one_iff _ (xs ++ y :: zs) 0).mpr hnofield]
    have e1 : ¬((-1 : Int) ≠ -1) := by simp
    rw [if_neg e1, addFieldFwd_super y hy xs zs 0 hnomethod hz]
    have e2 : ¬((((0 + xs.length + 1 : Nat) : Int)) = -1) := by omega
    rw [if_neg e2]
    have ht : (((0 + xs.length + 1 : Nat) : Int)).toNat = xs.length + 1 := by
      omega
    rw [ht]
    simp only [Nat.add_sub_cancel]
    rw [getD_append_length]
    have hyne : strip y ≠ "" := ne_empty_of_startsWith _ _ (by decide) hy
    rw [if_pos (by
      rw [Bool.and_eq_true, decide_eq_true_eq, decide_eq_true_eq]
      exact ⟨Nat.succ_pos _, hyne⟩)]
    rw [List.take_append 1, List.drop_append 1]
    simp
  · intro lines content
    by_cases hc : content = []
    · simp only [_apply_add_field, if_pos hc]
      simp [hc]
    · simp only [_apply_add_field, if_neg hc]
      constructor
      · intro hnone
        right
        by_cases hp1 : backFind
            (fun l => strStartsWith (strip l) ".field ") 0 lines = -1
        · rw [hp1] at hnone
          have e1 : ¬((-1 : Int) ≠ -1) := by simp
          rw [if_neg e1] at hnone
          by_cases hfwd : addFieldFwd 0 lines = -1
          · intro l hl
            have h1 := (backFind_eq_neg_one_iff _ lines 0).mp hp1 l hl
            have h23 := (addFieldFwd_eq_neg_one_iff lines 0).mp hfwd l hl
            exact ⟨h1, h23.1, h23.2⟩
          · rw [if_neg hfwd] at hnone
            exact absurd hnone (Option.some_ne_none _)
        · rw [if_pos hp1] at hnone
          rcases backFind_nonneg
              (fun l => strStartsWith (strip l) ".field ") lines 0 with h | h
          · exact absurd h hp1
          · have e2 : ¬(backFind
                (fun l => strStartsWith (strip l) ".field ") 0 lines + 1 = -1) := by
              omega
            rw [if_neg e2] at hnone
            exact absurd hnone (Option.some_ne_none _)
      · intro h
        rcases h with hc' | hall
        · exact absurd hc' hc
        · have e1 : ¬((-1 : Int) ≠ -1) := by simp
          rw [(backFind_eq_neg_one_iff _ lines 0).mpr
              (fun l hl => (hall l hl).1),
            if_neg e1,
            (addFieldFwd_eq_neg_one_iff lines 0).mpr
              (fun l hl => ⟨(hall l hl).2.1, (hall l hl).2.2⟩),
            if_pos rfl]

/-- C7 (counterexample): with an empty content block `_apply_add_field`
fails even though a `.super ` anchor exists, refuting "fails if and only
if none of these three anchors exist". -/
theorem c7_counterexample :
    _apply_add_field [".super Lx;"]
      { type := "ADD_FIELD", content := [] } = none ∧
    strStartsWith (strip ".super Lx;") ".super " = true :=
  ⟨by decide, by decide⟩

/-- Witness for C7, case (1): insertion right after the last field line,
with the blank separator. -/
theorem c7_witness :
    _apply_add_field ([".field a:I"] ++ ".field b:I" :: [".method c()V"])
      { type := "ADD_FIELD", content := [".field new:I"] } =
      some (([".field a:I"] ++ [".field b:I"]) ++
        ("" :: [".field new:I"]) ++ [".method c()V"]) :=
  c7_add_field_insertion.1 [".field a:I"] [".method c()V"]
    [".field new:I"] ".field b:I" (by decide) (by decide) (by decide)

end SmaliPatch
